import Mathlib

/-!
# QueryBase: the dynamic query execution engine

A shallow embedding of `internal/handlers/dynamic_query.go` (parameter
extraction and coercion, cache-key derivation, positional argument binding,
cache-aside execution and the `Execute` handler), followed by the theorems
that settle the specification's claims about it.

Conventions of the embedding:
* a Go `map[string]T` is an association list with unique keys, read with
  `mapGet` and written with `mapSet` (Go's `m[k] = v`);
* a Go `interface{}` holding a coerced parameter is a `Value`; a nil
  interface is `none : Option Value`;
* Go's `int` is the 64-bit signed integer, modelled by `Int` together with
  the explicit range checks that `strconv.Atoi` performs;
* float64 and `time.Time` payloads are carried by their bit pattern and
  their instant; the library routines that produce and print them are the
  fields of `StdLib`;
* wall-clock durations and the request deadline are not modelled.
-/

namespace QueryBase

/-! ## Go maps -/

/-- Go `map[string]T`, kept as an association list. -/
abbrev GoMap (α : Type) := List (String × α)

/-- Go `v, ok := m[k]`: `some v` when `k` is a key, `none` otherwise. -/
def mapGet {α : Type} : GoMap α → String → Option α
  | [], _ => none
  | (k', v) :: rest, k => if k' = k then some v else mapGet rest k

/-- Go `m[k] = v`: overwrite the entry of `k` or add one. -/
def mapSet {α : Type} : GoMap α → String → α → GoMap α
  | [], k, v => [(k, v)]
  | (k', v') :: rest, k, v =>
    if k' = k then (k, v) :: rest else (k', v') :: mapSet rest k v

/-- Go `len(m)`. -/
def mapLen {α : Type} (m : GoMap α) : Nat := m.length

/-! ## Data model -/

/-- Modelled from the spec: the declaration of `models.QueryParameter`
(spec section 3, ParameterDefinition) is not among the sources; the fields
are the ones the handler reads (`Name`, `ParamType`, `Position`,
`IsRequired`, `DefaultValue *string`). -/
structure QueryParameter where
  Name : String
  ParamType : String
  Position : Int
  IsRequired : Bool
  DefaultValue : Option String
  deriving DecidableEq, Repr

/-- Modelled from the spec: the declaration of `models.Query` (spec section
3, QueryDefinition) is not among the sources; the fields are the ones the
handler reads. -/
structure Query where
  ID : Nat
  Slug : String
  Name : String
  Description : String
  SQLQuery : String
  Parameters : List QueryParameter
  CacheTTL : Int
  TimeoutSeconds : Int
  deriving DecidableEq, Repr

/-- A coerced parameter value, the dynamic content of a Go `interface{}`
returned by `convertParamType`. -/
inductive Value where
  | str (s : String)
  | int (n : Int)
  | float (bits : Nat)
  | bool (b : Bool)
  | time (instant : Int)
  deriving DecidableEq, Repr

/-- The request as the handler sees it: `c.Param("slug")` and the parsed
query string, in the order of the entries. -/
structure Context where
  slug : String
  query : List (String × String)
  deriving DecidableEq, Repr

/-- Gin `c.GetQuery(key)`: the first value of `key` in the query string. -/
def Context.GetQuery (c : Context) (key : String) : Option String :=
  (c.query.find? (fun kv => kv.1 == key)).map (fun kv => kv.2)

/-- Gin `c.Query(key)`: the first value of `key`, or the empty string. -/
def Context.Query (c : Context) (key : String) : String :=
  (c.GetQuery key).getD ""

/-! ## Standard-library routines -/

/-- Routines of the Go standard library whose results are floating-point
numbers, instants or quoted text. They are inputs of the embedding: every
theorem holds for all of them. -/
structure StdLib where
  /-- Go `strconv.Quote`. -/
  Quote : String → String
  /-- Go `strconv.ParseFloat(value, 64)`, the result as a bit pattern. -/
  ParseFloat : String → Except String Nat
  /-- Go `time.Parse(layout, value)`. -/
  timeParse : String → String → Except String Int
  /-- Go `%v` of a float64. -/
  formatFloat : Nat → String
  /-- Go `%v` of a `time.Time`. -/
  formatTime : Int → String

/-- The two errors of package `strconv`. -/
inductive NumErrKind where
  | invalid
  | outOfRange
  deriving DecidableEq, Repr

/-- Go `(*NumError).Error()`. -/
def numErrorText (L : StdLib) (fn num : String) (k : NumErrKind) : String :=
  "strconv." ++ fn ++ ": parsing " ++ L.Quote num ++ ": " ++
    (match k with
     | .invalid => "invalid syntax"
     | .outOfRange => "value out of range")

/-- The largest `uint64`. -/
def maxUint64 : Nat := 2 ^ 64 - 1

/-- The digit loop of `strconv.ParseUint(s, 10, 64)`: a character that is
not a decimal digit is a syntax error, a value above `maxUint64` a range
error, whichever comes first. -/
def parseUintLoop : List Char → Nat → Except NumErrKind Nat
  | [], n => .ok n
  | ch :: rest, n =>
    if '0' ≤ ch ∧ ch ≤ '9' then
      if n ≥ maxUint64 / 10 + 1 then .error .outOfRange
      else
        let n1 := n * 10 + (ch.toNat - 48)
        if n1 > maxUint64 then .error .outOfRange else parseUintLoop rest n1
    else .error .invalid

/-- Go `strconv.Atoi` on a 64-bit platform. The fast path (fewer than 19
bytes) and the slow path (`ParseInt(s, 10, 0)`) accept the same strings
with the same results, so one definition covers both: an optional sign,
at least one decimal digit, nothing else, value within the range of
`int`. -/
def Atoi (L : StdLib) (s : String) : Except String Int :=
  match s.data with
  | [] => .error (numErrorText L "Atoi" s .invalid)
  | c0 :: rest =>
    let neg : Bool := c0 = '-'
    let digits := if c0 = '-' ∨ c0 = '+' then rest else c0 :: rest
    if digits = [] then .error (numErrorText L "Atoi" s .invalid)
    else
      match parseUintLoop digits 0 with
      | .error k => .error (numErrorText L "Atoi" s k)
      | .ok un =>
        if neg = false ∧ un ≥ 2 ^ 63 then .error (numErrorText L "Atoi" s .outOfRange)
        else if neg = true ∧ un > 2 ^ 63 then .error (numErrorText L "Atoi" s .outOfRange)
        else .ok (if neg then - (un : Int) else (un : Int))

/-- Go `strconv.ParseBool`. -/
def ParseBool (L : StdLib) (str : String) : Except String Bool :=
  if str = "1" ∨ str = "t" ∨ str = "T" ∨ str = "true" ∨ str = "TRUE" ∨ str = "True" then
    .ok true
  else if str = "0" ∨ str = "f" ∨ str = "F" ∨ str = "false" ∨ str = "FALSE" ∨ str = "False" then
    .ok false
  else .error (numErrorText L "ParseBool" str .invalid)

/-- Go `fmt.Sprintf("%v", val)` for a coerced parameter value. -/
def fmtV (L : StdLib) : Value → String
  | .str s => s
  | .int n => toString n
  | .float bits => L.formatFloat bits
  | .bool b => if b then "true" else "false"
  | .time t => L.formatTime t

/-! ## ParameterCoercer -/

/-- The method `convertParamType`. -/
def convertParamType (L : StdLib) (value : String) (paramType : String) :
    Except String Value :=
  if paramType = "string" then .ok (.str value)
  else if paramType = "integer" then (Atoi L value).map Value.int
  else if paramType = "number" then (L.ParseFloat value).map Value.float
  else if paramType = "boolean" then (ParseBool L value).map Value.bool
  else if paramType = "date" then (L.timeParse "2006-01-02" value).map Value.time
  else if paramType = "datetime" then
    (L.timeParse "2006-01-02 15:04:05" value).map Value.time
  else .ok (.str value)

/-- The part of the loop body of `extractAndValidateParams` after the raw
value is known: coerce it, record the failure or store the value. -/
def coerceAndStore (L : StdLib) (acc : GoMap Value × GoMap String)
    (p : QueryParameter) (rawValue : String) : GoMap Value × GoMap String :=
  match convertParamType L rawValue p.ParamType with
  | .error err =>
    (acc.1, mapSet acc.2 p.Name
      ("tipo inválido: esperado " ++ p.ParamType ++ ", erro: " ++ err))
  | .ok converted => (mapSet acc.1 p.Name converted, acc.2)

/-- One iteration of the loop of `extractAndValidateParams`; the state is
the pair `(params, errors)`. -/
def extractStep (L : StdLib) (c : Context) (acc : GoMap Value × GoMap String)
    (p : QueryParameter) : GoMap Value × GoMap String :=
  let rawValue := c.Query p.Name
  if rawValue = "" then
    if p.IsRequired then
      (acc.1, mapSet acc.2 p.Name "parâmetro obrigatório não fornecido")
    else
      match p.DefaultValue with
      | some d => coerceAndStore L acc p d
      | none => acc
  else coerceAndStore L acc p rawValue

/-- The method `extractAndValidateParams`: the resolved-parameter mapping
and the validation-error mapping. -/
def extractAndValidateParams (L : StdLib) (c : Context) (query : Query) :
    GoMap Value × GoMap String :=
  query.Parameters.foldl (extractStep L c) ([], [])

/-! ## CacheKeyBuilder and ArgumentBinder -/

/-- The loop body of `buildCacheKey`: `key += ":name=value"` when the name
is a key of `params`. -/
def cacheKeyStep (L : StdLib) (params : GoMap Value) (key : String)
    (d : QueryParameter) : String :=
  match mapGet params d.Name with
  | some val => key ++ (":" ++ d.Name ++ "=" ++ fmtV L val)
  | none => key

/-- The method `buildCacheKey`: the loop appends to `key` in the order of
`definitions`. -/
def buildCacheKey (L : StdLib) (slug : String) (params : GoMap Value)
    (definitions : List QueryParameter) : String :=
  definitions.foldl (cacheKeyStep L params) ("query:" ++ slug)

/-- The first loop of `buildQueryArgs`: the largest position, at least 0. -/
def maxPosition (definitions : List QueryParameter) : Int :=
  definitions.foldl
    (fun maxPos d => if d.Position > maxPos then d.Position else maxPos) 0

/-- Go `args[i] = v` on a slice: `none` is the run-time panic of an index
out of range. -/
def sliceWrite (args : List (Option Value)) (i : Int) (v : Option Value) :
    Option (List (Option Value)) :=
  if 0 ≤ i ∧ i < (args.length : Int) then some (args.set i.toNat v) else none

/-- The second loop of `buildQueryArgs`. -/
def bindLoop (params : GoMap Value) :
    List QueryParameter → List (Option Value) → Option (List (Option Value))
  | [], args => some args
  | d :: rest, args =>
    match mapGet params d.Name with
    | some val =>
      match sliceWrite args (d.Position - 1) (some val) with
      | some args1 => bindLoop params rest args1
      | none => none
    | none => bindLoop params rest args

/-- The method `buildQueryArgs`; `none` is a panic (index out of range). -/
def buildQueryArgs (params : GoMap Value) (definitions : List QueryParameter) :
    Option (List (Option Value)) :=
  let maxPos := maxPosition definitions
  let args : List (Option Value) := List.replicate maxPos.toNat none
  bindLoop params definitions args

/-! ## ExecutionCache and the handler -/

/-- A cached or freshly produced result, held as its JSON encoding. -/
abbrev Data := String

/-- One decoded result row, Go `map[string]interface{}`: column name to the
JSON encoding of the cell. -/
abbrev Record := GoMap String

/-- The live (non-expired) entries of the cache backend. -/
abbrev Cache := GoMap Data

/-- The observable I/O of the handler. -/
inductive Effect where
  | findBySlug (slug : String)
  | getOrSet (key : String)
  | executeQueryDirect (sql : String) (args : List (Option Value))
  | logExecution (slug : String) (cacheHit : Bool) (rowCount : Nat)
      (error : Option String)
  deriving DecidableEq, Repr

/-- The collaborators of the handler that are outside the sources: the
catalog (`QueryRepository.FindBySlug`), the data source
(`QueryService.ExecuteQueryDirect`) and the decoding done by
`json.Marshal` followed by `json.Unmarshal` into a list of records. -/
structure Deps where
  FindBySlug : String → Except String Query
  ExecuteQueryDirect : String → List (Option Value) → Except String Data
  unmarshalRecords : Data → Except String (List Record)

/-- Modelled from the spec: `services.CacheService.GetOrSet` is not among
the sources. Section 4.5: a live entry is returned and the producer is not
invoked; otherwise the producer runs, its result is stored on success and
nothing is stored on failure. The Go method returns two values (the data
and an error), so the only trace a producer run leaves for the caller is
what the producer does to the state `σ` it closes over. Failures of the
cache backend itself are not modelled. -/
def GetOrSet {σ : Type} (cache : Cache) (key : String)
    (producer : σ → Except String Data × σ) (s : σ) :
    Except String Data × Cache × σ :=
  match mapGet cache key with
  | some v => (.ok v, cache, s)
  | none =>
    match producer s with
    | (.ok v, s1) => (.ok v, mapSet cache key v, s1)
    | (.error e, s1) => (.error e, cache, s1)

/-- The variables that the producer closure of `executeWithCache` captures,
and the I/O done so far. -/
structure ExecLocals where
  cacheHit : Bool
  trace : List Effect
  deriving DecidableEq, Repr

/-- What `executeWithCache` returns (`results`, `cacheHit`, `err`), with
the cache afterwards and the I/O it did. -/
structure ExecOutcome where
  results : Except String (List Record)
  cacheHit : Bool
  cache : Cache
  trace : List Effect

/-- The method `executeWithCache`. `var cacheHit bool` starts as false, the
producer closure assigns false to it, and the branch after `GetOrSet` maps
false to false and true to true. -/
def executeWithCache (D : Deps) (cache : Cache) (cacheKey : String)
    (query : Query) (args : List (Option Value)) : ExecOutcome :=
  let locals0 : ExecLocals := ⟨false, [Effect.getOrSet cacheKey]⟩
  let producer : ExecLocals → Except String Data × ExecLocals := fun st =>
    (D.ExecuteQueryDirect query.SQLQuery args,
      ⟨false, st.trace ++ [Effect.executeQueryDirect query.SQLQuery args]⟩)
  match GetOrSet cache cacheKey producer locals0 with
  | (.error err, cache1, st) => ⟨.error err, false, cache1, st.trace⟩
  | (.ok data, cache1, st) =>
    let cacheHit : Bool := if !st.cacheHit then false else true
    match D.unmarshalRecords data with
    | .error err => ⟨.error err, cacheHit, cache1, st.trace⟩
    | .ok results => ⟨.ok results, cacheHit, cache1, st.trace⟩

/-- The JSON answers of `Execute`. `panicked` is the run-time panic of
`buildQueryArgs`, which leaves the handler without an answer of its own. -/
inductive Response where
  | notFound (slug details : String)
  | badRequest (slug : String) (validation : GoMap String)
  | internalServerError (slug details : String)
  | ok (data : List Record) (slug name : String) (count : Nat)
      (cacheHit : Bool) (parameters : GoMap Value)
  | panicked
  deriving DecidableEq, Repr

/-- The HTTP status of an answer (500 for a recovered panic). -/
def Response.status : Response → Nat
  | .notFound _ _ => 404
  | .badRequest _ _ => 400
  | .internalServerError _ _ => 500
  | .ok _ _ _ _ _ _ => 200
  | .panicked => 500

/-- The method `Execute`: the answer, the cache afterwards and the I/O done,
in order. -/
def Execute (L : StdLib) (D : Deps) (cache : Cache) (c : Context) :
    Response × Cache × List Effect :=
  let slug := c.slug
  match D.FindBySlug slug with
  | .error err => (.notFound slug err, cache, [Effect.findBySlug slug])
  | .ok query =>
    let pe := extractAndValidateParams L c query
    let params := pe.1
    let validationErrors := pe.2
    if mapLen validationErrors > 0 then
      (.badRequest slug validationErrors, cache, [Effect.findBySlug slug])
    else
      let cacheKey := buildCacheKey L slug params query.Parameters
      match buildQueryArgs params query.Parameters with
      | none => (.panicked, cache, [Effect.findBySlug slug])
      | some args =>
        let out := executeWithCache D cache cacheKey query args
        match out.results with
        | .error err =>
          (.internalServerError slug err, out.cache,
            Effect.findBySlug slug :: out.trace ++
              [Effect.logExecution query.Slug out.cacheHit 0 (some err)])
        | .ok results =>
          (.ok results slug query.Name results.length out.cacheHit params,
            out.cache,
            Effect.findBySlug slug :: out.trace ++
              [Effect.logExecution query.Slug out.cacheHit results.length none])

/-! ## Reference definitions following the specification's wording -/

/-- The text `:<name>=<value>` of one definition, when its name is present in
the resolved-parameter mapping. -/
def keySegment (L : StdLib) (params : GoMap Value) (d : QueryParameter) : Option String :=
  (mapGet params d.Name).map (fun v => ":" ++ d.Name ++ "=" ++ fmtV L v)

/-- The cache key as section 4.3 words it: `query:<slug>`, then one
`:<name>=<value>` per definition, in catalog order, whose name is present
in the resolved-parameter mapping. -/
def cacheKeySpec (L : StdLib) (slug : String) (params : GoMap Value)
    (definitions : List QueryParameter) : String :=
  "query:" ++ slug ++ String.join (definitions.filterMap (keySegment L params))

/-- A strict base-10 integer literal: an optional sign followed by one or
more decimal digits and nothing else. -/
def isIntegerLiteral (s : String) : Bool :=
  match s.data with
  | [] => false
  | c0 :: rest =>
    let digits := if c0 = '-' ∨ c0 = '+' then rest else c0 :: rest
    !digits.isEmpty && digits.all (fun ch => decide ('0' ≤ ch ∧ ch ≤ '9'))

/-- The number a run of decimal digits denotes, continuing from `n`. -/
def decimalValue (digits : List Char) (n : Nat) : Nat :=
  digits.foldl (fun a ch => a * 10 + (ch.toNat - 48)) n

/-- The integer an integer literal denotes. -/
def literalValue (s : String) : Int :=
  match s.data with
  | [] => 0
  | c0 :: rest =>
    if c0 = '-' then - (decimalValue rest 0 : Int)
    else if c0 = '+' then (decimalValue rest 0 : Int)
    else (decimalValue (c0 :: rest) 0 : Int)

/-! ## Auxiliary definitions for the proofs -/

/-- The range of Go `int` on a 64-bit platform, `-2^63 .. 2^63-1`. -/
def inIntRange (z : Int) : Prop := -(2 ^ 63 : Int) ≤ z ∧ z < (2 ^ 63 : Int)

instance (z : Int) : Decidable (inIntRange z) := by unfold inIntRange; infer_instance

/-- A small instance of the library routines for the worked examples.
`Quote` wraps the text in double quotes, which is what `strconv.Quote` does
for printable text without quotes or backslashes; the examples use no
float or time parameter, and these parsers reject every input here. -/
def exampleLib : StdLib where
  Quote := fun s => "\"" ++ s ++ "\""
  ParseFloat := fun s => .error ("strconv.ParseFloat: parsing \"" ++ s ++ "\": invalid syntax")
  timeParse := fun _ v => .error ("parsing time \"" ++ v ++ "\"")
  formatFloat := fun bits => toString bits
  formatTime := fun t => toString t

/-! ## Worked examples -/

/-- The parameter of the catalog entry `employees-by-department`. -/
def departmentParam : QueryParameter := ⟨"department", "integer", 1, true, none⟩

/-- The catalog entry `employees-by-department`. -/
def employeesByDepartment : Query :=
  ⟨1, "employees-by-department", "Employees by department", "",
    "SELECT employee_id FROM employees WHERE department_id = :1",
    [departmentParam], 300, 30⟩

/-- The catalog entry `employees-all`, without parameters. -/
def employeesAll : Query :=
  ⟨2, "employees-all", "All employees", "", "SELECT employee_id FROM employees", [], 300, 30⟩

/-- A catalog entry with a required parameter, a required parameter that
carries a default, an optional parameter without default and an optional
parameter with a default. -/
def employeesSearch : Query :=
  ⟨3, "employees-search", "Employee search", "",
    "SELECT employee_id FROM employees WHERE department_id = :1 AND ROWNUM <= :2",
    [departmentParam,
     ⟨"limit", "integer", 2, true, some "10"⟩,
     ⟨"name", "string", 3, false, none⟩,
     ⟨"active", "boolean", 4, false, some "true"⟩], 300, 30⟩

/-- Two string parameters, both optional. -/
def pairParams : List QueryParameter :=
  [⟨"a", "string", 1, false, none⟩, ⟨"b", "string", 2, false, none⟩]

/-- A catalog and data source for the worked examples. -/
def exampleDeps : Deps where
  FindBySlug := fun slug =>
    if slug = "employees-by-department" then .ok employeesByDepartment
    else if slug = "employees-all" then .ok employeesAll
    else .error "sql: no rows in result set"
  ExecuteQueryDirect := fun _ _ => .ok "[]"
  unmarshalRecords := fun data =>
    if data = "[]" then .ok [] else .error "json: cannot unmarshal"

/-! # Lemmas -/

/-! ## Lemmas on Go maps -/

theorem mapGet_mapSet_self {α : Type} (m : GoMap α) (k : String) (v : α) :
    mapGet (mapSet m k v) k = some v := by
  induction m with
  | nil => simp [mapSet, mapGet]
  | cons kv rest ih =>
    obtain ⟨k', v'⟩ := kv
    by_cases h : k' = k
    · simp [mapSet, mapGet, h]
    · simp [mapSet, mapGet, h, ih]

theorem mapGet_mapSet_ne {α : Type} (m : GoMap α) (k n : String) (v : α) (hn : n ≠ k) :
    mapGet (mapSet m k v) n = mapGet m n := by
  induction m with
  | nil => simp [mapSet, mapGet, Ne.symm hn]
  | cons kv rest ih =>
    obtain ⟨k', v'⟩ := kv
    by_cases h : k' = k
    · subst h
      simp [mapSet, mapGet, Ne.symm hn]
    · by_cases h2 : k' = n
      · subst h2
        simp [mapSet, mapGet, h]
      · simp [mapSet, mapGet, h, h2, ih]

theorem mapSet_ne_nil {α : Type} (m : GoMap α) (k : String) (v : α) :
    mapSet m k v ≠ [] := by
  cases m with
  | nil => simp [mapSet]
  | cons kv rest =>
    obtain ⟨k', v'⟩ := kv
    by_cases h : k' = k <;> simp [mapSet, h]

theorem mapGet_isSome_mapSet {α : Type} (m : GoMap α) (k n : String) (v : α)
    (h : (mapGet m n).isSome) : (mapGet (mapSet m k v) n).isSome := by
  by_cases hn : n = k
  · subst hn; simp [mapGet_mapSet_self]
  · rw [mapGet_mapSet_ne m k n v hn]; exact h

/-! ## Lemmas on the extraction loop -/

theorem coerceAndStore_other (L : StdLib) (acc : GoMap Value × GoMap String)
    (p : QueryParameter) (raw n : String) (hn : n ≠ p.Name) :
    mapGet (coerceAndStore L acc p raw).1 n = mapGet acc.1 n ∧
    mapGet (coerceAndStore L acc p raw).2 n = mapGet acc.2 n := by
  unfold coerceAndStore
  cases convertParamType L raw p.ParamType with
  | error e => simp [mapGet_mapSet_ne _ _ _ _ hn]
  | ok v => simp [mapGet_mapSet_ne _ _ _ _ hn]

theorem extractStep_other (L : StdLib) (c : Context) (acc : GoMap Value × GoMap String)
    (p : QueryParameter) (n : String) (hn : n ≠ p.Name) :
    mapGet (extractStep L c acc p).1 n = mapGet acc.1 n ∧
    mapGet (extractStep L c acc p).2 n = mapGet acc.2 n := by
  unfold extractStep
  simp only
  split
  · split
    · simp [mapGet_mapSet_ne _ _ _ _ hn]
    · split
      · exact coerceAndStore_other L acc p _ n hn
      · simp
  · exact coerceAndStore_other L acc p _ n hn

theorem coerceAndStore_errors_mono (L : StdLib) (acc : GoMap Value × GoMap String)
    (p : QueryParameter) (raw n : String) (h : (mapGet acc.2 n).isSome) :
    (mapGet (coerceAndStore L acc p raw).2 n).isSome := by
  unfold coerceAndStore
  cases convertParamType L raw p.ParamType with
  | error e => exact mapGet_isSome_mapSet _ _ _ _ h
  | ok v => exact h

theorem extractStep_errors_mono (L : StdLib) (c : Context) (acc : GoMap Value × GoMap String)
    (p : QueryParameter) (n : String) (h : (mapGet acc.2 n).isSome) :
    (mapGet (extractStep L c acc p).2 n).isSome := by
  unfold extractStep
  simp only
  split
  · split
    · exact mapGet_isSome_mapSet _ _ _ _ h
    · split
      · exact coerceAndStore_errors_mono L acc p _ n h
      · exact h
  · exact coerceAndStore_errors_mono L acc p _ n h

theorem foldl_errors_mono (L : StdLib) (c : Context) (ps : List QueryParameter)
    (acc : GoMap Value × GoMap String) (n : String) (h : (mapGet acc.2 n).isSome) :
    (mapGet (ps.foldl (extractStep L c) acc).2 n).isSome := by
  induction ps generalizing acc with
  | nil => exact h
  | cons p rest ih => exact ih _ (extractStep_errors_mono L c acc p n h)

theorem foldl_required_missing (L : StdLib) (c : Context) (ps : List QueryParameter)
    (acc : GoMap Value × GoMap String) (p : QueryParameter) (hp : p ∈ ps)
    (hreq : p.IsRequired = true) (hraw : c.Query p.Name = "") :
    (mapGet (ps.foldl (extractStep L c) acc).2 p.Name).isSome := by
  induction ps generalizing acc with
  | nil => cases hp
  | cons q rest ih =>
    rcases List.mem_cons.mp hp with h | h
    · subst h
      rw [List.foldl_cons]
      apply foldl_errors_mono
      simp [extractStep, hraw, hreq, mapGet_mapSet_self]
    · exact ih _ h

/-- A parameter that is optional, has no default and gets no raw value leaves the state as it is. -/
theorem extractStep_unset (L : StdLib) (c : Context) (acc : GoMap Value × GoMap String)
    (p : QueryParameter) (hreq : p.IsRequired = false) (hdef : p.DefaultValue = none)
    (hraw : c.Query p.Name = "") : extractStep L c acc p = acc := by
  simp [extractStep, hraw, hreq, hdef]

theorem foldl_unset_absent (L : StdLib) (c : Context) (ps : List QueryParameter)
    (acc : GoMap Value × GoMap String) (n : String)
    (hacc : mapGet acc.1 n = none ∧ mapGet acc.2 n = none)
    (hall : ∀ q ∈ ps, q.Name = n →
      q.IsRequired = false ∧ q.DefaultValue = none ∧ c.Query q.Name = "") :
    mapGet (ps.foldl (extractStep L c) acc).1 n = none ∧
    mapGet (ps.foldl (extractStep L c) acc).2 n = none := by
  induction ps generalizing acc with
  | nil => exact hacc
  | cons q rest ih =>
    rw [List.foldl_cons]
    apply ih
    · by_cases hq : q.Name = n
      · obtain ⟨h1, h2, h3⟩ := hall q (List.mem_cons_self _ _) hq
        rw [extractStep_unset L c acc q h1 h2 h3]
        exact hacc
      · have := extractStep_other L c acc q n (fun h => hq h.symm)
        rw [this.1, this.2]
        exact hacc
    · intro q' hq' hn
      exact hall q' (List.mem_cons_of_mem _ hq') hn

theorem eq_of_name_eq {ps : List QueryParameter} (hnodup : (ps.map (fun d => d.Name)).Nodup)
    {p q : QueryParameter} (hp : p ∈ ps) (hq : q ∈ ps) (h : q.Name = p.Name) : q = p :=
  List.inj_on_of_nodup_map hnodup hq hp h

theorem keyLoop_filter_absent (L : StdLib) (params : GoMap Value) (n : String)
    (habs : mapGet params n = none) (ps : List QueryParameter) (start : String) :
    ps.foldl (cacheKeyStep L params) start =
    (ps.filter (fun d => d.Name != n)).foldl (cacheKeyStep L params) start := by
  induction ps generalizing start with
  | nil => rfl
  | cons q rest ih =>
    by_cases hq : q.Name = n
    · rw [List.filter_cons_of_neg (by simp [hq]), List.foldl_cons]
      have : cacheKeyStep L params start q = start := by simp [cacheKeyStep, hq, habs]
      rw [this]
      exact ih start
    · rw [List.filter_cons_of_pos (by simp [hq]), List.foldl_cons, List.foldl_cons]
      exact ih _

theorem keyLoop_eq_join (L : StdLib) (params : GoMap Value) (ps : List QueryParameter)
    (start : String) :
    ps.foldl (cacheKeyStep L params) start =
    start ++ String.join (ps.filterMap (keySegment L params)) := by
  induction ps generalizing start with
  | nil => simp [String.join]
  | cons q rest ih =>
    rw [List.foldl_cons, ih]
    cases hq : mapGet params q.Name with
    | none => simp [List.filterMap_cons, keySegment, cacheKeyStep, hq]
    | some v =>
      apply String.ext
      simp [List.filterMap_cons, keySegment, cacheKeyStep, hq, String.data_append,
        String.data_join]

theorem buildCacheKey_eq_spec (L : StdLib) (slug : String) (params : GoMap Value)
    (ps : List QueryParameter) :
    buildCacheKey L slug params ps = cacheKeySpec L slug params ps := by
  unfold buildCacheKey cacheKeySpec
  rw [keyLoop_eq_join]

/-! ## Decoding a key -/

theorem foldl_max_ge (ps : List QueryParameter) (m : Int) :
    m ≤ ps.foldl (fun maxPos d => if d.Position > maxPos then d.Position else maxPos) m ∧
    ∀ d ∈ ps, d.Position ≤
      ps.foldl (fun maxPos d => if d.Position > maxPos then d.Position else maxPos) m := by
  induction ps generalizing m with
  | nil => simp
  | cons q rest ih =>
    rw [List.foldl_cons]
    have h := ih (if q.Position > m then q.Position else m)
    have hm : m ≤ (if q.Position > m then q.Position else m) := by split <;> omega
    have hq : q.Position ≤ (if q.Position > m then q.Position else m) := by split <;> omega
    refine ⟨le_trans hm h.1, ?_⟩
    intro d hd
    rcases List.mem_cons.mp hd with e | e
    · subst e; exact le_trans hq h.1
    · exact h.2 d e

theorem foldl_max_attained (ps : List QueryParameter) (m : Int) :
    ps.foldl (fun maxPos d => if d.Position > maxPos then d.Position else maxPos) m = m ∨
    ∃ d ∈ ps, d.Position =
      ps.foldl (fun maxPos d => if d.Position > maxPos then d.Position else maxPos) m := by
  induction ps generalizing m with
  | nil => simp
  | cons q rest ih =>
    rw [List.foldl_cons]
    rcases ih (if q.Position > m then q.Position else m) with h | ⟨d, hd, h⟩
    · rw [h]
      by_cases hq : q.Position > m
      · right
        exact ⟨q, List.mem_cons_self _ _, by simp [hq]⟩
      · left
        simp [hq]
    · right
      exact ⟨d, List.mem_cons_of_mem _ hd, h⟩

theorem le_maxPosition (ps : List QueryParameter) :
    ∀ d ∈ ps, d.Position ≤ maxPosition ps := (foldl_max_ge ps 0).2

theorem maxPosition_nonneg (ps : List QueryParameter) : 0 ≤ maxPosition ps :=
  (foldl_max_ge ps 0).1

theorem bindLoop_total (params : GoMap Value) :
    ∀ (ps : List QueryParameter) (args : List (Option Value)),
      (∀ d ∈ ps, 1 ≤ d.Position ∧ d.Position ≤ (args.length : Int)) →
      ∃ res, bindLoop params ps args = some res ∧ res.length = args.length
  | [], args, _ => ⟨args, rfl, rfl⟩
  | q :: rest, args, h => by
    have hq := h q (List.mem_cons_self _ _)
    cases hget : mapGet params q.Name with
    | none =>
      simp only [bindLoop, hget]
      exact bindLoop_total params rest args (fun d hd => h d (List.mem_cons_of_mem _ hd))
    | some v =>
      have hw : sliceWrite args (q.Position - 1) (some v) =
          some (args.set (q.Position - 1).toNat (some v)) := by
        unfold sliceWrite
        rw [if_pos]
        omega
      simp only [bindLoop, hget, hw]
      obtain ⟨res, h1, h2⟩ := bindLoop_total params rest
        (args.set (q.Position - 1).toNat (some v))
        (fun d hd => by
          rw [List.length_set]
          exact h d (List.mem_cons_of_mem _ hd))
      exact ⟨res, h1, by rw [h2, List.length_set]⟩

theorem bindLoop_layout (params : GoMap Value) :
    ∀ (ps : List QueryParameter) (args : List (Option Value)),
      (∀ d ∈ ps, 1 ≤ d.Position ∧ d.Position ≤ (args.length : Int)) →
      (ps.map (fun d => d.Position)).Nodup →
      ∃ res, bindLoop params ps args = some res ∧ res.length = args.length ∧
        (∀ d ∈ ps, ∀ v, mapGet params d.Name = some v →
          res[(d.Position - 1).toNat]? = some (some v)) ∧
        (∀ i : Nat, (∀ d ∈ ps, (mapGet params d.Name).isSome → (d.Position - 1).toNat ≠ i) →
          res[i]? = args[i]?)
  | [], args, _, _ => ⟨args, rfl, rfl, fun d hd => absurd hd (List.not_mem_nil d), fun _ _ => rfl⟩
  | q :: rest, args, h, hnd => by
    have hq := h q (List.mem_cons_self _ _)
    rw [List.map_cons, List.nodup_cons] at hnd
    cases hget : mapGet params q.Name with
    | none =>
      simp only [bindLoop, hget]
      obtain ⟨res, h1, h2, h3, h4⟩ := bindLoop_layout params rest args
        (fun d hd => h d (List.mem_cons_of_mem _ hd)) hnd.2
      refine ⟨res, h1, h2, ?_, ?_⟩
      · intro d hd v hv
        rcases List.mem_cons.mp hd with e | e
        · subst e; rw [hget] at hv; cases hv
        · exact h3 d e v hv
      · intro i hi
        exact h4 i (fun d hd => hi d (List.mem_cons_of_mem _ hd))
    | some v =>
      have hw : sliceWrite args (q.Position - 1) (some v) =
          some (args.set (q.Position - 1).toNat (some v)) := by
        unfold sliceWrite
        rw [if_pos]
        omega
      simp only [bindLoop, hget, hw]
      obtain ⟨res, h1, h2, h3, h4⟩ := bindLoop_layout params rest
        (args.set (q.Position - 1).toNat (some v))
        (fun d hd => by
          rw [List.length_set]
          exact h d (List.mem_cons_of_mem _ hd)) hnd.2
      refine ⟨res, h1, by rw [h2, List.length_set], ?_, ?_⟩
      · intro d hd w hw'
        rcases List.mem_cons.mp hd with e | e
        · subst e
          rw [hget] at hw'
          cases hw'
          rw [h4]
          · apply List.getElem?_set_self
            omega
          · intro d' hd' _ hpos
            have h1' := h d' (List.mem_cons_of_mem _ hd')
            apply hnd.1
            rw [List.mem_map]
            exact ⟨d', hd', by omega⟩
        · exact h3 d e w hw'
      · intro i hi
        rw [h4 i (fun d hd => hi d (List.mem_cons_of_mem _ hd))]
        apply List.getElem?_set_ne
        exact hi q (List.mem_cons_self _ _) (by simp [hget])

theorem bindLoop_panics (params : GoMap Value) :
    ∀ (ps : List QueryParameter) (args : List (Option Value)),
      (∃ d ∈ ps, d.Position ≤ 0 ∧ (mapGet params d.Name).isSome) →
      bindLoop params ps args = none
  | [], _, h => by obtain ⟨d, hd, _⟩ := h; cases hd
  | q :: rest, args, h => by
    obtain ⟨d, hd, hpos, hres⟩ := h
    cases hget : mapGet params q.Name with
    | none =>
      simp only [bindLoop, hget]
      rcases List.mem_cons.mp hd with e | e
      · subst e; simp [hget] at hres
      · exact bindLoop_panics params rest args ⟨d, e, hpos, hres⟩
    | some v =>
      simp only [bindLoop, hget]
      cases hw : sliceWrite args (q.Position - 1) (some v) with
      | none => rfl
      | some args1 =>
        simp only
        rcases List.mem_cons.mp hd with e | e
        · subst e
          unfold sliceWrite at hw
          rw [if_neg (by omega)] at hw
          cases hw
        · exact bindLoop_panics params rest args1 ⟨d, e, hpos, hres⟩

/-- Whatever the cache holds, `executeWithCache` never reports a hit: the
captured variable starts false and the producer only ever assigns false. -/
theorem executeWithCache_cacheHit_false (D : Deps) (cache : Cache) (cacheKey : String)
    (query : Query) (args : List (Option Value)) :
    (executeWithCache D cache cacheKey query args).cacheHit = false := by
  unfold executeWithCache GetOrSet
  cases mapGet cache cacheKey with
  | some v =>
    simp only
    cases D.unmarshalRecords v <;> rfl
  | none =>
    simp only
    cases D.ExecuteQueryDirect query.SQLQuery args with
    | error e => rfl
    | ok v =>
      simp only
      cases D.unmarshalRecords v <;> rfl

/-! ## Lemmas on `strconv.Atoi` -/

theorem maxUint64_eq : maxUint64 = 18446744073709551615 := by decide

theorem decimalValue_cons (ch : Char) (rest : List Char) (n : Nat) :
    decimalValue (ch :: rest) n = decimalValue rest (n * 10 + (ch.toNat - 48)) := rfl

theorem decimalValue_ge (ds : List Char) (n : Nat) : n ≤ decimalValue ds n := by
  induction ds generalizing n with
  | nil => exact Nat.le_refl _
  | cons ch rest ih =>
    rw [decimalValue_cons]
    have := ih (n * 10 + (ch.toNat - 48))
    omega

theorem parseUintLoop_of_digits (ds : List Char) (n : Nat)
    (hd : ds.all (fun ch => decide ('0' ≤ ch ∧ ch ≤ '9')) = true)
    (hv : decimalValue ds n ≤ maxUint64) :
    parseUintLoop ds n = .ok (decimalValue ds n) := by
  induction ds generalizing n with
  | nil => rfl
  | cons ch rest ih =>
    rw [List.all_cons, Bool.and_eq_true] at hd
    rw [decimalValue_cons] at hv ⊢
    have hge := decimalValue_ge rest (n * 10 + (ch.toNat - 48))
    have hch : '0' ≤ ch ∧ ch ≤ '9' := of_decide_eq_true hd.1
    rw [maxUint64_eq] at hv
    unfold parseUintLoop
    rw [if_pos hch, if_neg (by rw [maxUint64_eq]; omega)]
    simp only
    rw [if_neg (by rw [maxUint64_eq]; omega)]
    exact ih _ hd.2 (by rw [maxUint64_eq]; exact hv)

theorem parseUintLoop_ok (ds : List Char) (n m : Nat)
    (h : parseUintLoop ds n = .ok m) :
    ds.all (fun ch => decide ('0' ≤ ch ∧ ch ≤ '9')) = true ∧ m = decimalValue ds n := by
  induction ds generalizing n with
  | nil =>
    simp only [parseUintLoop, Except.ok.injEq] at h
    exact ⟨rfl, h.symm⟩
  | cons ch rest ih =>
    unfold parseUintLoop at h
    split at h
    · rename_i hch
      split at h
      · cases h
      · simp only at h
        split at h
        · cases h
        · have := ih _ h
          rw [List.all_cons, decimalValue_cons]
          rw [Bool.and_eq_true]
          exact ⟨⟨decide_eq_true hch, this.1⟩, this.2⟩
    · cases h

theorem Atoi_of_literal (L : StdLib) (s : String)
    (hlit : isIntegerLiteral s = true) (hrange : inIntRange (literalValue s)) :
    Atoi L s = .ok (literalValue s) := by
  unfold isIntegerLiteral at hlit
  unfold literalValue inIntRange at *
  unfold Atoi
  cases hs : s.data with
  | nil => simp [hs] at hlit
  | cons c0 rest =>
    simp only [hs] at hlit hrange ⊢
    rw [Bool.and_eq_true] at hlit
    obtain ⟨hne, hall⟩ := hlit
    by_cases hm : c0 = '-'
    · subst hm
      simp only [true_or, if_true] at hne hall hrange ⊢
      have hne' : rest ≠ [] := by intro e; simp [e] at hne
      have hv : decimalValue rest 0 ≤ maxUint64 := by rw [maxUint64_eq]; omega
      rw [if_neg hne', parseUintLoop_of_digits rest 0 hall hv]
      simp only [decide_True, Bool.true_eq_false, false_and, if_false, true_and, if_true]
      rw [if_neg (by omega)]
    · by_cases hp : c0 = '+'
      · subst hp
        simp only [or_true, if_true, hm, if_false] at hne hall hrange ⊢
        have hne' : rest ≠ [] := by intro e; simp [e] at hne
        have hv : decimalValue rest 0 ≤ maxUint64 := by rw [maxUint64_eq]; omega
        rw [if_neg hne', parseUintLoop_of_digits rest 0 hall hv]
        simp only [decide_False, true_and, Bool.false_eq_true, false_and, if_false]
        rw [if_neg (by omega)]
      · simp only [hm, hp, or_self, if_false] at hne hall hrange ⊢
        have hv : decimalValue (c0 :: rest) 0 ≤ maxUint64 := by rw [maxUint64_eq]; omega
        rw [if_neg (by simp), parseUintLoop_of_digits (c0 :: rest) 0 hall hv]
        simp only [decide_False, true_and, Bool.false_eq_true, false_and, if_false]
        rw [if_neg (by omega)]

theorem not_isEmpty_of_ne_nil {l : List Char} (h : l ≠ []) : (!l.isEmpty) = true := by
  cases l with
  | nil => exact absurd rfl h
  | cons a t => rfl

theorem Atoi_ok (L : StdLib) (s : String) (v : Int) (h : Atoi L s = .ok v) :
    isIntegerLiteral s = true ∧ inIntRange (literalValue s) ∧ v = literalValue s := by
  unfold Atoi at h
  unfold isIntegerLiteral literalValue inIntRange
  cases hs : s.data with
  | nil => simp [hs] at h
  | cons c0 rest =>
    simp only [hs] at h ⊢
    have core : ∀ (neg : Bool) (ds : List Char),
        (if ds = [] then (Except.error (numErrorText L "Atoi" s .invalid) : Except String Int)
         else
          match parseUintLoop ds 0 with
          | .error k => .error (numErrorText L "Atoi" s k)
          | .ok un =>
            if neg = false ∧ un ≥ 2 ^ 63 then .error (numErrorText L "Atoi" s .outOfRange)
            else if neg = true ∧ un > 2 ^ 63 then
              .error (numErrorText L "Atoi" s .outOfRange)
            else .ok (if neg then - (un : Int) else (un : Int))) = .ok v →
        ds ≠ [] ∧ ds.all (fun ch => decide ('0' ≤ ch ∧ ch ≤ '9')) = true ∧
        (neg = false → decimalValue ds 0 < 2 ^ 63 ∧ v = (decimalValue ds 0 : Int)) ∧
        (neg = true → decimalValue ds 0 ≤ 2 ^ 63 ∧ v = - (decimalValue ds 0 : Int)) := by
      intro neg ds hh
      by_cases hne : ds = []
      · rw [if_pos hne] at hh; cases hh
      · rw [if_neg hne] at hh
        cases hun : parseUintLoop ds 0 with
        | error k => rw [hun] at hh; cases hh
        | ok un =>
          rw [hun] at hh
          obtain ⟨hall, hval⟩ := parseUintLoop_ok _ _ _ hun
          subst hval
          cases neg with
          | false =>
            simp only [true_and, Bool.false_eq_true, false_and, if_false] at hh
            by_cases hr : decimalValue ds 0 ≥ 2 ^ 63
            · rw [if_pos hr] at hh; cases hh
            · rw [if_neg hr] at hh
              simp only [Except.ok.injEq] at hh
              exact ⟨hne, hall, fun _ => ⟨by omega, hh.symm⟩, fun e => absurd e (by decide)⟩
          | true =>
            simp only [true_and, Bool.true_eq_false, false_and, if_false, if_true] at hh
            by_cases hr : decimalValue ds 0 > 2 ^ 63
            · rw [if_pos hr] at hh; cases hh
            · rw [if_neg hr] at hh
              simp only [Except.ok.injEq] at hh
              exact ⟨hne, hall, fun e => absurd e (by decide), fun _ => ⟨by omega, hh.symm⟩⟩
    obtain ⟨hne, hall, hpos, hneg⟩ := core _ _ h
    by_cases hm : c0 = '-'
    · subst hm
      simp only [true_or, if_true] at hne hall hpos hneg ⊢
      obtain ⟨hb, hv⟩ := hneg (by simp)
      refine ⟨Bool.and_eq_true _ _ ▸ ⟨not_isEmpty_of_ne_nil hne, hall⟩, ⟨?_, ?_⟩, hv⟩ <;> omega
    · by_cases hp : c0 = '+'
      · subst hp
        simp only [or_true, if_true, hm, if_false] at hne hall hpos hneg ⊢
        obtain ⟨hb, hv⟩ := hpos (by simp)
        refine ⟨Bool.and_eq_true _ _ ▸ ⟨not_isEmpty_of_ne_nil hne, hall⟩, ⟨?_, ?_⟩, hv⟩ <;> omega
      · simp only [hm, hp, or_self, if_false] at hne hall hpos hneg ⊢
        obtain ⟨hb, hv⟩ := hpos (by simp [hm])
        refine ⟨Bool.and_eq_true _ _ ▸ ⟨not_isEmpty_of_ne_nil hne, hall⟩, ⟨?_, ?_⟩, hv⟩ <;> omega

/-! ## One definition per name -/

theorem foldl_other (L : StdLib) (c : Context) (ps : List QueryParameter)
    (acc : GoMap Value × GoMap String) (n : String) (hne : ∀ q ∈ ps, q.Name ≠ n) :
    mapGet (ps.foldl (extractStep L c) acc).1 n = mapGet acc.1 n ∧
    mapGet (ps.foldl (extractStep L c) acc).2 n = mapGet acc.2 n := by
  induction ps generalizing acc with
  | nil => exact ⟨rfl, rfl⟩
  | cons q rest ih =>
    rw [List.foldl_cons]
    have h1 := ih (extractStep L c acc q) (fun q' hq' => hne q' (List.mem_cons_of_mem _ hq'))
    have h2 := extractStep_other L c acc q n (fun e => hne q (List.mem_cons_self _ _) e.symm)
    exact ⟨h1.1.trans h2.1, h1.2.trans h2.2⟩

theorem coerceAndStore_at_self (L : StdLib) (acc : GoMap Value × GoMap String)
    (p : QueryParameter) (raw : String)
    (hacc : mapGet acc.1 p.Name = none ∧ mapGet acc.2 p.Name = none) :
    mapGet (coerceAndStore L acc p raw).1 p.Name =
      mapGet (coerceAndStore L ([], []) p raw).1 p.Name ∧
    mapGet (coerceAndStore L acc p raw).2 p.Name =
      mapGet (coerceAndStore L ([], []) p raw).2 p.Name := by
  unfold coerceAndStore
  cases convertParamType L raw p.ParamType with
  | error e => simp [mapGet_mapSet_self, hacc.1, mapGet]
  | ok v => simp [mapGet_mapSet_self, hacc.2, mapGet]

theorem extractStep_at_self (L : StdLib) (c : Context) (acc : GoMap Value × GoMap String)
    (p : QueryParameter)
    (hacc : mapGet acc.1 p.Name = none ∧ mapGet acc.2 p.Name = none) :
    mapGet (extractStep L c acc p).1 p.Name = mapGet (extractStep L c ([], []) p).1 p.Name ∧
    mapGet (extractStep L c acc p).2 p.Name = mapGet (extractStep L c ([], []) p).2 p.Name := by
  unfold extractStep
  simp only
  split
  · split
    · simp [mapGet_mapSet_self, hacc.1, mapGet]
    · split
      · exact coerceAndStore_at_self L acc p _ hacc
      · simp [hacc.1, hacc.2, mapGet]
  · exact coerceAndStore_at_self L acc p _ hacc

/-- With unique names, what the two mappings hold for a declared name is decided by the
iteration of that definition alone. -/
theorem foldl_at_unique (L : StdLib) (c : Context) (p : QueryParameter) :
    ∀ (ps : List QueryParameter) (acc : GoMap Value × GoMap String),
      (ps.map (fun d => d.Name)).Nodup → p ∈ ps →
      mapGet acc.1 p.Name = none ∧ mapGet acc.2 p.Name = none →
      mapGet (ps.foldl (extractStep L c) acc).1 p.Name =
        mapGet (extractStep L c ([], []) p).1 p.Name ∧
      mapGet (ps.foldl (extractStep L c) acc).2 p.Name =
        mapGet (extractStep L c ([], []) p).2 p.Name
  | [], _, _, hp, _ => absurd hp (List.not_mem_nil p)
  | q :: rest, acc, hnd, hp, hacc => by
    rw [List.map_cons, List.nodup_cons] at hnd
    rw [List.foldl_cons]
    by_cases e : q = p
    · subst e
      have h1 := foldl_other L c rest (extractStep L c acc q) q.Name (fun q' hq' hn =>
        hnd.1 (List.mem_map.mpr ⟨q', hq', hn⟩))
      have h2 := extractStep_at_self L c acc q hacc
      exact ⟨h1.1.trans h2.1, h1.2.trans h2.2⟩
    · have hp' : p ∈ rest := by
        rcases List.mem_cons.mp hp with h | h
        · exact absurd h.symm e
        · exact h
      have hne : p.Name ≠ q.Name := fun hn =>
        hnd.1 (List.mem_map.mpr ⟨p, hp', hn⟩)
      have h2 := extractStep_other L c acc q p.Name hne
      exact foldl_at_unique L c p rest _ hnd.2 hp' ⟨h2.1.trans hacc.1, h2.2.trans hacc.2⟩

/-! ## Rendering of integers -/

/-- C1. When the catalog returns the definition and the failure mapping of
`extractAndValidateParams` is non-empty, `Execute` answers HTTP 400 with that
mapping under `validation`, leaves the cache as it was, and its only I/O is
the catalog lookup: no `GetOrSet`, no `ExecuteQueryDirect`, no producer run. -/
theorem Execute_rejects_invalid_before_io (L : StdLib) (D : Deps) (cache : Cache)
    (c : Context) (query : Query)
    (hfound : D.FindBySlug c.slug = .ok query)
    (herr : (extractAndValidateParams L c query).2 ≠ []) :
    Execute L D cache c =
      (Response.badRequest c.slug (extractAndValidateParams L c query).2, cache,
        [Effect.findBySlug c.slug]) ∧
    (Execute L D cache c).1.status = 400 := by
  have hlen : mapLen (extractAndValidateParams L c query).2 > 0 := by
    unfold mapLen
    exact List.length_pos.mpr herr
  have e : Execute L D cache c =
      (Response.badRequest c.slug (extractAndValidateParams L c query).2, cache,
        [Effect.findBySlug c.slug]) := by
    simp [Execute, hfound, hlen]
  exact ⟨e, by rw [e]; rfl⟩

/-- Witness of C1: `department=abc` for `employees-by-department`. -/
theorem Execute_rejects_invalid_before_io_witness :
    exampleDeps.FindBySlug "employees-by-department" = .ok employeesByDepartment ∧
    (extractAndValidateParams exampleLib
      ⟨"employees-by-department", [("department", "abc")]⟩ employeesByDepartment).2 ≠ [] ∧
    Execute exampleLib exampleDeps [] ⟨"employees-by-department", [("department", "abc")]⟩ =
      (Response.badRequest "employees-by-department"
        (extractAndValidateParams exampleLib
          ⟨"employees-by-department", [("department", "abc")]⟩ employeesByDepartment).2,
        [], [Effect.findBySlug "employees-by-department"]) ∧
    (Execute exampleLib exampleDeps []
      ⟨"employees-by-department", [("department", "abc")]⟩).1.status = 400 :=
  ⟨rfl, by decide,
    Execute_rejects_invalid_before_io exampleLib exampleDeps []
      ⟨"employees-by-department", [("department", "abc")]⟩ employeesByDepartment rfl
      (by decide)⟩

/-- C2, the code at the failing input. With a live entry for the key,
`GetOrSet` returns the stored data without running the producer (the only
I/O is the cache access), and `executeWithCache` returns that data with the
cache-hit flag false; `Execute` then reports `cache_hit = false` for a
request served from the cache. -/
theorem executeWithCache_live_entry_flag_false (D : Deps) (key : String) (data : Data)
    (query : Query) (args : List (Option Value)) :
    (executeWithCache D [(key, data)] key query args).cacheHit = false ∧
    (executeWithCache D [(key, data)] key query args).trace = [Effect.getOrSet key] ∧
    (executeWithCache D [(key, data)] key query args).results = D.unmarshalRecords data ∧
    Execute exampleLib exampleDeps [("query:employees-all", "[]")] ⟨"employees-all", []⟩ =
      (Response.ok [] "employees-all" "All employees" 0 false [],
        [("query:employees-all", "[]")],
        [Effect.findBySlug "employees-all", Effect.getOrSet "query:employees-all",
          Effect.logExecution "employees-all" false 0 none]) := by
  refine ⟨?_, ?_, ?_, by decide⟩
  all_goals
    simp only [executeWithCache, GetOrSet, mapGet, if_true]
    cases D.unmarshalRecords data <;> rfl

/-- C3. Every definition that is required and for which the request supplies
no value (`c.Query` gives the empty string) is a key of the validation-error
mapping, whatever its default value and whatever the other definitions do:
the loop goes on after a failure and later iterations never remove a key. -/
theorem required_missing_is_collected (L : StdLib) (c : Context) (query : Query)
    (p : QueryParameter) (hp : p ∈ query.Parameters)
    (hreq : p.IsRequired = true) (hraw : c.Query p.Name = "") :
    (mapGet (extractAndValidateParams L c query).2 p.Name).isSome = true :=
  foldl_required_missing L c query.Parameters ([], []) p hp hreq hraw

/-- Witness of C3: in `employees-search` both `department` and `limit` are
required and missing; `limit`, which carries a default, is reported too. -/
theorem required_missing_is_collected_witness :
    (⟨"limit", "integer", 2, true, some "10"⟩ : QueryParameter) ∈ employeesSearch.Parameters ∧
    (⟨"limit", "integer", 2, true, some "10"⟩ : QueryParameter).IsRequired = true ∧
    (⟨"employees-search", [("name", "King")]⟩ : Context).Query "limit" = "" ∧
    (mapGet (extractAndValidateParams exampleLib ⟨"employees-search", [("name", "King")]⟩
      employeesSearch).2 "limit").isSome = true ∧
    (extractAndValidateParams exampleLib ⟨"employees-search", [("name", "King")]⟩
      employeesSearch).2 =
      [("department", "parâmetro obrigatório não fornecido"),
       ("limit", "parâmetro obrigatório não fornecido")] :=
  ⟨by decide, rfl, by decide,
    required_missing_is_collected exampleLib ⟨"employees-search", [("name", "King")]⟩
      employeesSearch ⟨"limit", "integer", 2, true, some "10"⟩ (by decide) rfl (by decide),
    by decide⟩

/-- C4 as stated fails: `9223372036854775808` is a strict base-10 integer
literal, yet `strconv.Atoi` rejects it as out of range, so the name is not
resolved and the error mapping holds it. -/
theorem integer_literal_out_of_range_rejected :
    isIntegerLiteral "9223372036854775808" = true ∧
    mapGet (extractAndValidateParams exampleLib
      ⟨"employees-by-department", [("department", "9223372036854775808")]⟩
      employeesByDepartment).1 "department" ≠
        some (Value.int (literalValue "9223372036854775808")) ∧
    mapGet (extractAndValidateParams exampleLib
      ⟨"employees-by-department", [("department", "9223372036854775808")]⟩
      employeesByDepartment).2 "department" =
        some ("tipo inválido: esperado integer, erro: " ++
          "strconv.Atoi: parsing \"9223372036854775808\": value out of range") := by
  decide

/-- C4, amended. In a definition with unique parameter names, for a
parameter of type `integer` with a supplied non-empty raw value: if the raw
string is a strict base-10 integer literal whose value is in the range of
Go `int`, the resolved-parameter mapping maps the name to that integer and
the error mapping does not contain the name; otherwise the error mapping
holds the name with a message that names the expected type `integer`, and
the name is absent from the resolved-parameter mapping. -/
theorem integer_parameter_outcome (L : StdLib) (c : Context) (query : Query)
    (p : QueryParameter)
    (hnodup : (query.Parameters.map (fun d => d.Name)).Nodup)
    (hp : p ∈ query.Parameters)
    (htype : p.ParamType = "integer")
    (hraw : c.Query p.Name ≠ "") :
    (isIntegerLiteral (c.Query p.Name) = true ∧ inIntRange (literalValue (c.Query p.Name)) →
      mapGet (extractAndValidateParams L c query).1 p.Name =
        some (Value.int (literalValue (c.Query p.Name))) ∧
      mapGet (extractAndValidateParams L c query).2 p.Name = none) ∧
    (¬ (isIntegerLiteral (c.Query p.Name) = true ∧
        inIntRange (literalValue (c.Query p.Name))) →
      (∃ e, mapGet (extractAndValidateParams L c query).2 p.Name =
        some ("tipo inválido: esperado " ++ "integer" ++ ", erro: " ++ e)) ∧
      mapGet (extractAndValidateParams L c query).1 p.Name = none) := by
  have h := foldl_at_unique L c p query.Parameters ([], []) hnodup hp ⟨rfl, rfl⟩
  have hstep : extractStep L c ([], []) p = coerceAndStore L ([], []) p (c.Query p.Name) := by
    unfold extractStep
    simp only
    rw [if_neg hraw]
  have hconv : convertParamType L (c.Query p.Name) p.ParamType =
      (Atoi L (c.Query p.Name)).map Value.int := by
    unfold convertParamType
    rw [htype]
    simp
  unfold extractAndValidateParams
  rw [h.1, h.2, hstep]
  unfold coerceAndStore
  rw [hconv]
  constructor
  · intro hl
    rw [Atoi_of_literal L _ hl.1 hl.2]
    simp [Except.map, mapGet, mapSet]
  · intro hl
    cases ha : Atoi L (c.Query p.Name) with
    | ok v =>
      exfalso
      have := Atoi_ok L _ v ha
      exact hl ⟨this.1, this.2.1⟩
    | error e =>
      simp only [Except.map]
      rw [htype]
      exact ⟨⟨e, by simp [mapGet, mapSet]⟩, by simp [mapGet]⟩

/-- Witness of C4 amended: `department=42` resolves to 42. -/
theorem integer_parameter_outcome_witness :
    (employeesByDepartment.Parameters.map (fun d => d.Name)).Nodup ∧
    departmentParam ∈ employeesByDepartment.Parameters ∧
    departmentParam.ParamType = "integer" ∧
    (⟨"employees-by-department", [("department", "42")]⟩ : Context).Query
      departmentParam.Name ≠ "" ∧
    (isIntegerLiteral "42" = true ∧ inIntRange (literalValue "42")) ∧
    mapGet (extractAndValidateParams exampleLib
      ⟨"employees-by-department", [("department", "42")]⟩ employeesByDepartment).1
      "department" = some (Value.int 42) ∧
    mapGet (extractAndValidateParams exampleLib
      ⟨"employees-by-department", [("department", "42")]⟩ employeesByDepartment).2
      "department" = none :=
  ⟨by decide, by decide, rfl, by decide, by decide,
    ((integer_parameter_outcome exampleLib
      ⟨"employees-by-department", [("department", "42")]⟩ employeesByDepartment
      departmentParam (by decide) (by decide) rfl (by decide)).1 (by decide))⟩

/-- C5. `buildCacheKey` returns `"query:" ++ slug` followed, in the order of
the definition list, by `":" ++ name ++ "=" ++ render value` for each
definition whose name is a key of the mapping and by nothing for the others
(`cacheKeySpec`); two mappings with the same content, whatever the order in
which their entries were inserted, give the same key. -/
theorem buildCacheKey_catalog_order (L : StdLib) (slug : String) (m1 m2 : GoMap Value)
    (ps : List QueryParameter) (hsame : ∀ k, mapGet m1 k = mapGet m2 k) :
    buildCacheKey L slug m1 ps = cacheKeySpec L slug m1 ps ∧
    buildCacheKey L slug m2 ps = buildCacheKey L slug m1 ps := by
  refine ⟨buildCacheKey_eq_spec L slug m1 ps, ?_⟩
  unfold buildCacheKey
  congr 1
  funext key d
  simp only [cacheKeyStep, hsame]

/-- Witness of C5: `a` then `b` inserted, against `b` then `a`. -/
theorem buildCacheKey_catalog_order_witness :
    (∀ k, mapGet (mapSet (mapSet [] "a" (Value.str "x")) "b" (Value.int 2)) k =
      mapGet (mapSet (mapSet [] "b" (Value.int 2)) "a" (Value.str "x")) k) ∧
    buildCacheKey exampleLib "pair"
      (mapSet (mapSet [] "a" (Value.str "x")) "b" (Value.int 2)) pairParams =
      cacheKeySpec exampleLib "pair"
        (mapSet (mapSet [] "a" (Value.str "x")) "b" (Value.int 2)) pairParams ∧
    buildCacheKey exampleLib "pair"
      (mapSet (mapSet [] "b" (Value.int 2)) "a" (Value.str "x")) pairParams =
      buildCacheKey exampleLib "pair"
        (mapSet (mapSet [] "a" (Value.str "x")) "b" (Value.int 2)) pairParams ∧
    buildCacheKey exampleLib "pair"
      (mapSet (mapSet [] "b" (Value.int 2)) "a" (Value.str "x")) pairParams =
      "query:pair:a=x:b=2" :=
  have hsame : ∀ k, mapGet (mapSet (mapSet [] "a" (Value.str "x")) "b" (Value.int 2)) k =
      mapGet (mapSet (mapSet [] "b" (Value.int 2)) "a" (Value.str "x")) k := by
    intro k
    by_cases ha : "a" = k
    · subst ha; decide
    · by_cases hb : "b" = k
      · subst hb; decide
      · simp [mapSet, mapGet, ha, hb]
  ⟨hsame, (buildCacheKey_catalog_order exampleLib "pair" _ _ pairParams hsame).1,
    (buildCacheKey_catalog_order exampleLib "pair" _ _ pairParams hsame).2, by decide⟩

/-- C6. When all positions are at least 1 and pairwise distinct,
`buildQueryArgs` returns a vector whose length is the maximum position
(0 for an empty definition list), in which index `position - 1` holds the
coerced value of every definition whose name is resolved and every other
index is null. -/
theorem buildQueryArgs_layout (params : GoMap Value) (ps : List QueryParameter)
    (hpos : ∀ d ∈ ps, 1 ≤ d.Position)
    (hdist : (ps.map (fun d => d.Position)).Nodup) :
    ∃ args, buildQueryArgs params ps = some args ∧
      (args.length : Int) = maxPosition ps ∧
      (∀ d ∈ ps, d.Position ≤ maxPosition ps) ∧
      (ps = [] → maxPosition ps = 0) ∧
      (ps ≠ [] → ∃ d ∈ ps, d.Position = maxPosition ps) ∧
      (∀ d ∈ ps, ∀ v, mapGet params d.Name = some v →
        args[(d.Position - 1).toNat]? = some (some v)) ∧
      (∀ i : Nat, i < args.length →
        (∀ d ∈ ps, (mapGet params d.Name).isSome → (d.Position - 1).toNat ≠ i) →
        args[i]? = some none) := by
  have hnn := maxPosition_nonneg ps
  have hle := le_maxPosition ps
  obtain ⟨res, h1, h2, h3, h4⟩ := bindLoop_layout params ps
    (List.replicate (maxPosition ps).toNat none)
    (fun d hd => ⟨hpos d hd, by rw [List.length_replicate]; have := hle d hd; omega⟩) hdist
  rw [List.length_replicate] at h2
  refine ⟨res, h1, by omega, hle, ?_, ?_, h3, ?_⟩
  · intro e; subst e; rfl
  · intro hne
    rcases foldl_max_attained ps 0 with h | h
    · obtain ⟨d, hd⟩ := List.exists_mem_of_ne_nil ps hne
      have a := hpos d hd
      have b := hle d hd
      unfold maxPosition at b
      omega
    · exact h
  · intro i hi hfree
    rw [h4 i hfree]
    apply List.getElem?_replicate_of_lt
    omega

/-- Witness of C6: `department` (integer, position 1) resolved from the raw
value "10" gives the vector `[10]`; with gaps, the unfilled slots are null. -/
theorem buildQueryArgs_layout_witness :
    (∀ d ∈ employeesByDepartment.Parameters, 1 ≤ d.Position) ∧
    (employeesByDepartment.Parameters.map (fun d => d.Position)).Nodup ∧
    (∃ args, buildQueryArgs
        (extractAndValidateParams exampleLib
          ⟨"employees-by-department", [("department", "10")]⟩ employeesByDepartment).1
        employeesByDepartment.Parameters = some args ∧
      (args.length : Int) = maxPosition employeesByDepartment.Parameters) ∧
    buildQueryArgs
      (extractAndValidateParams exampleLib
        ⟨"employees-by-department", [("department", "10")]⟩ employeesByDepartment).1
      employeesByDepartment.Parameters = some [some (Value.int 10)] ∧
    buildQueryArgs [("active", Value.bool true), ("department", Value.int 10)]
      employeesSearch.Parameters =
      some [some (Value.int 10), none, none, some (Value.bool true)] :=
  ⟨by decide, by decide,
    (buildQueryArgs_layout
      (extractAndValidateParams exampleLib
        ⟨"employees-by-department", [("department", "10")]⟩ employeesByDepartment).1
      employeesByDepartment.Parameters (by decide) (by decide)).imp
      (fun _ h => ⟨h.1, h.2.1⟩),
    by decide, by decide⟩

/-- C7. In a definition with unique parameter names, an optional parameter
without default for which the request supplies no value is absent from the
resolved-parameter mapping and from the error mapping, and the cache key
built from that mapping equals the key built from the definition list with
that parameter removed. -/
theorem unset_optional_absent (L : StdLib) (c : Context) (query : Query) (slug : String)
    (p : QueryParameter)
    (hnodup : (query.Parameters.map (fun d => d.Name)).Nodup)
    (hp : p ∈ query.Parameters)
    (hreq : p.IsRequired = false) (hdef : p.DefaultValue = none)
    (hraw : c.Query p.Name = "") :
    mapGet (extractAndValidateParams L c query).1 p.Name = none ∧
    mapGet (extractAndValidateParams L c query).2 p.Name = none ∧
    buildCacheKey L slug (extractAndValidateParams L c query).1 query.Parameters =
      buildCacheKey L slug (extractAndValidateParams L c query).1
        (query.Parameters.erase p) := by
  have habs := foldl_unset_absent L c query.Parameters ([], []) p.Name ⟨rfl, rfl⟩
    (fun q hq hn => by
      have := eq_of_name_eq hnodup hp hq hn
      subst this
      exact ⟨hreq, hdef, hraw⟩)
  refine ⟨habs.1, habs.2, ?_⟩
  have hfil : query.Parameters.erase p =
      query.Parameters.filter (fun d => d.Name != p.Name) := by
    have hnd : query.Parameters.Nodup := List.Nodup.of_map _ hnodup
    rw [List.Nodup.erase_eq_filter hnd]
    apply List.filter_congr
    intro q hq
    by_cases hn : q.Name = p.Name
    · have := eq_of_name_eq hnodup hp hq hn
      subst this
      simp
    · have : q ≠ p := fun h => hn (by rw [h])
      rw [bne_iff_ne.mpr hn, bne_iff_ne.mpr this]
  rw [hfil]
  exact keyLoop_filter_absent L _ p.Name habs.1 _ _

/-- Witness of C7: `name` of `employees-search` is optional, has no default
and is not supplied. -/
theorem unset_optional_absent_witness :
    (employeesSearch.Parameters.map (fun d => d.Name)).Nodup ∧
    (⟨"name", "string", 3, false, none⟩ : QueryParameter) ∈ employeesSearch.Parameters ∧
    (⟨"employees-search", [("department", "10")]⟩ : Context).Query "name" = "" ∧
    (mapGet (extractAndValidateParams exampleLib ⟨"employees-search", [("department", "10")]⟩
        employeesSearch).1 "name" = none ∧
      mapGet (extractAndValidateParams exampleLib ⟨"employees-search", [("department", "10")]⟩
        employeesSearch).2 "name" = none ∧
      buildCacheKey exampleLib "employees-search"
        (extractAndValidateParams exampleLib ⟨"employees-search", [("department", "10")]⟩
          employeesSearch).1 employeesSearch.Parameters =
        buildCacheKey exampleLib "employees-search"
          (extractAndValidateParams exampleLib ⟨"employees-search", [("department", "10")]⟩
            employeesSearch).1
          (employeesSearch.Parameters.erase ⟨"name", "string", 3, false, none⟩)) :=
  ⟨by decide, by decide, by decide,
    unset_optional_absent exampleLib ⟨"employees-search", [("department", "10")]⟩
      employeesSearch "employees-search" ⟨"name", "string", 3, false, none⟩
      (by decide) (by decide) rfl rfl (by decide)⟩

/-- C8. Two requests for which `c.Query` gives the same raw value for every
declared parameter name (the same supplied value, or none in both) yield
the same resolved-parameter mapping, the same error mapping and the same
cache key, whatever the order of their query-string entries and whatever
undeclared entries they carry. -/
theorem same_declared_values_same_key (L : StdLib) (slug : String) (query : Query)
    (c1 c2 : Context)
    (h : ∀ p ∈ query.Parameters, c1.Query p.Name = c2.Query p.Name) :
    (extractAndValidateParams L c1 query).1 = (extractAndValidateParams L c2 query).1 ∧
    (extractAndValidateParams L c1 query).2 = (extractAndValidateParams L c2 query).2 ∧
    buildCacheKey L slug (extractAndValidateParams L c1 query).1 query.Parameters =
      buildCacheKey L slug (extractAndValidateParams L c2 query).1 query.Parameters := by
  have key : ∀ (ps : List QueryParameter) (acc : GoMap Value × GoMap String),
      (∀ p ∈ ps, c1.Query p.Name = c2.Query p.Name) →
      ps.foldl (extractStep L c1) acc = ps.foldl (extractStep L c2) acc := by
    intro ps
    induction ps with
    | nil => intro acc _; rfl
    | cons q rest ih =>
      intro acc hq
      have h1 : extractStep L c1 acc q = extractStep L c2 acc q := by
        simp [extractStep, hq q (List.mem_cons_self _ _)]
      rw [List.foldl_cons, List.foldl_cons, h1]
      exact ih _ (fun p hp => hq p (List.mem_cons_of_mem _ hp))
  have e : extractAndValidateParams L c1 query = extractAndValidateParams L c2 query :=
    key _ _ h
  exact ⟨by rw [e], by rw [e], by rw [e]⟩

/-- Witness of C8: `department=10` alone, and among unrelated entries. -/
theorem same_declared_values_same_key_witness :
    (∀ p ∈ employeesByDepartment.Parameters,
      (⟨"employees-by-department", [("department", "10")]⟩ : Context).Query p.Name =
      (⟨"employees-by-department",
        [("page", "2"), ("department", "10"), ("debug", "1")]⟩ : Context).Query p.Name) ∧
    buildCacheKey exampleLib "employees-by-department"
      (extractAndValidateParams exampleLib
        ⟨"employees-by-department", [("department", "10")]⟩ employeesByDepartment).1
      employeesByDepartment.Parameters =
    buildCacheKey exampleLib "employees-by-department"
      (extractAndValidateParams exampleLib
        ⟨"employees-by-department", [("page", "2"), ("department", "10"), ("debug", "1")]⟩
        employeesByDepartment).1
      employeesByDepartment.Parameters ∧
    buildCacheKey exampleLib "employees-by-department"
      (extractAndValidateParams exampleLib
        ⟨"employees-by-department", [("debug", "1"), ("department", "10"), ("page", "2")]⟩
        employeesByDepartment).1
      employeesByDepartment.Parameters = "query:employees-by-department:department=10" :=
  ⟨by decide,
    (same_declared_values_same_key exampleLib "employees-by-department" employeesByDepartment
      ⟨"employees-by-department", [("department", "10")]⟩
      ⟨"employees-by-department", [("page", "2"), ("department", "10"), ("debug", "1")]⟩
      (by decide)).2.2,
    by decide⟩

/-- The two conditions on names are needed: with a declared name that
contains `=`, or one that contains `:`, different resolved mappings whose
values hold no segment header share a key. -/
theorem buildCacheKey_collision_by_names :
    buildCacheKey exampleLib "s" [("a", Value.str "b=c")]
        [⟨"a", "string", 1, false, none⟩, ⟨"a=b", "string", 2, false, none⟩] =
      buildCacheKey exampleLib "s" [("a=b", Value.str "c")]
        [⟨"a", "string", 1, false, none⟩, ⟨"a=b", "string", 2, false, none⟩] ∧
    buildCacheKey exampleLib "s" [("a", Value.str "r"), ("x:y", Value.str "v")]
        [⟨"a", "string", 1, false, none⟩, ⟨"x:y", "string", 2, false, none⟩,
          ⟨"y", "string", 3, false, none⟩] =
      buildCacheKey exampleLib "s" [("a", Value.str "r:x"), ("y", Value.str "v")]
        [⟨"a", "string", 1, false, none⟩, ⟨"x:y", "string", 2, false, none⟩,
          ⟨"y", "string", 3, false, none⟩] := by
  decide

/-- C10. When every position is at least 1, every write `args[position-1]`
of `buildQueryArgs` is in range (`0 <= position-1 < max position`) and the
method returns a vector; the precondition is needed: whenever a definition
with position 0 or below has its name resolved, the write is out of range
and the method panics. -/
theorem buildQueryArgs_in_range (params : GoMap Value) (ps : List QueryParameter)
    (hpos : ∀ d ∈ ps, 1 ≤ d.Position) :
    ((∀ d ∈ ps, 0 ≤ d.Position - 1 ∧ d.Position - 1 < maxPosition ps) ∧
      (buildQueryArgs params ps).isSome = true) ∧
    (∀ (params1 : GoMap Value) (ps1 : List QueryParameter),
      (∃ d ∈ ps1, d.Position ≤ 0 ∧ (mapGet params1 d.Name).isSome = true) →
      buildQueryArgs params1 ps1 = none) := by
  have hle := le_maxPosition ps
  refine ⟨⟨fun d hd => ?_, ?_⟩, fun params1 ps1 h => bindLoop_panics params1 ps1 _ h⟩
  · have a := hpos d hd
    have b := hle d hd
    omega
  · obtain ⟨res, h1, _⟩ := bindLoop_total params ps
      (List.replicate (maxPosition ps).toNat none)
      (fun d hd => ⟨hpos d hd, by
        rw [List.length_replicate]
        have := hle d hd
        have := maxPosition_nonneg ps
        omega⟩)
    unfold buildQueryArgs
    simp [h1]

/-- Witness of C10: positions 1 to 4 are in range; position 0 panics. -/
theorem buildQueryArgs_in_range_witness :
    (∀ d ∈ employeesSearch.Parameters, 1 ≤ d.Position) ∧
    (buildQueryArgs [("department", Value.int 10)] employeesSearch.Parameters).isSome = true ∧
    buildQueryArgs [("department", Value.int 10)]
      [⟨"department", "integer", 0, true, none⟩] = none :=
  ⟨by decide,
    (buildQueryArgs_in_range [("department", Value.int 10)] employeesSearch.Parameters
      (by decide)).1.2,
    (buildQueryArgs_in_range [("department", Value.int 10)] employeesSearch.Parameters
      (by decide)).2 [("department", Value.int 10)]
      [⟨"department", "integer", 0, true, none⟩]
      ⟨⟨"department", "integer", 0, true, none⟩, by decide, by decide, by decide⟩⟩

end QueryBase
